import Mathlib

/-!
Shallow embedding of the text-diff-tool core (src/core.ts): normalization,
tokenization, LCS alignment, change classification, semantic similarity,
merge generation, character diff and the streaming coordinator, together
with proofs settling the specification claims.

Strings are modelled as lists of characters (one entry per code unit).
Floating-point numbers in the source are modelled as exact rationals.
-/

namespace TextDiff

/-- A text value: a list of characters (JS string code units). -/
abbrev Str := List Char

/-- Whitespace test mirroring the JS regex class `\s`. -/
def isWS (c : Char) : Bool :=
  c = ' ' || c = '\t' || c = '\n' || c = '\r' ||
  c.val = 11 || c.val = 12 ||            -- vertical tab, form feed
  c.val = 0xa0 || c.val = 0x1680 ||
  (0x2000 ≤ c.val && c.val ≤ 0x200a) ||
  c.val = 0x2028 || c.val = 0x2029 || c.val = 0x202f ||
  c.val = 0x205f || c.val = 0x3000 || c.val = 0xfeff

/-- Sentence-terminal punctuation from the regex class `[.!?]`. -/
def isPunct (c : Char) : Bool := c = '.' || c = '!' || c = '?'

/-- Word character per the JS regex class `\w`: ASCII alphanumeric or underscore. -/
def isWordChar (c : Char) : Bool := c.isAlphanum || c = '_'

/-- Lower-casing of a text, mirroring `String.prototype.toLowerCase` on its
ASCII fragment. -/
def toLowerStr (s : Str) : Str := s.map Char.toLower

/-- Helper for `collapseWS`: `inWS` records whether the previous character was
part of a whitespace run already replaced by a single space. -/
def collapseWSAux (inWS : Bool) : Str → Str
  | [] => []
  | c :: rest =>
    if isWS c then
      if inWS then collapseWSAux true rest else ' ' :: collapseWSAux true rest
    else c :: collapseWSAux false rest

/-- The replacement `text.replace(/\s+/g, ' ')`: every maximal whitespace run
becomes a single space. -/
def collapseWS (s : Str) : Str := collapseWSAux false s

/-- The call `text.trim()`: strip whitespace from both ends. -/
def trimStr (s : Str) : Str :=
  ((s.dropWhile isWS).reverse.dropWhile isWS).reverse

/-- Whether the text contains a CRLF pair (the only delimiter that the
line splitter does not reproduce verbatim when joining with a bare `\n`). -/
def hasCRLF : Str → Bool
  | '\r' :: '\n' :: _ => true
  | _ :: rest => hasCRLF rest
  | [] => false

/-- The call `lines.join('\n')` on a list of texts. -/
def joinLines : List Str → Str
  | [] => []
  | [l] => l
  | l :: rest => l ++ '\n' :: joinLines rest

/-- The call `parts.join(sep)` on a list of texts. -/
def joinWith (sep : Str) : List Str → Str
  | [] => []
  | [l] => l
  | l :: rest => l ++ sep ++ joinWith sep rest

/-- Insertion-ordered duplicate removal, mirroring the construction of a JS
`Set` from a list: the first occurrence of each element is kept, in order. -/
def dedupFirst : List Str → List Str
  | [] => []
  | a :: l => a :: dedupFirst (l.filter (· ≠ a))
termination_by l => l.length
decreasing_by
  simp only [List.length_cons]
  exact Nat.lt_succ_of_le (List.length_filter_le _ _)

-- ============================================================================
-- Tokenizer
-- ============================================================================

/-- The split `text.split(/\r?\n/)`: a piece boundary at every `\n` or `\r\n`. -/
def splitLines : Str → List Str
  | '\r' :: '\n' :: rest => [] :: splitLines rest
  | '\n' :: rest => [] :: splitLines rest
  | c :: rest =>
    match splitLines rest with
    | [] => [[c]]
    | p :: ps => (c :: p) :: ps
  | [] => [[]]

/-- Helper for `wordTokens`: groups consecutive characters of equal
whitespace-class; `p` is the class of the run being collected in `cur`
(reversed). -/
def runsAux (p : Bool) (cur : Str) : Str → List Str
  | [] => [cur.reverse]
  | c :: rest =>
    if isWS c = p then runsAux p (c :: cur) rest
    else cur.reverse :: runsAux (isWS c) [c] rest

/-- The split `text.split(/(\s+)/).filter(t => t.length > 0)`: because the
separator group is capturing, whitespace runs are kept as tokens; the filter
removes only the empty fragments at the edges, so the result is the list of
maximal same-class character runs. -/
def wordTokens : Str → List Str
  | [] => []
  | c :: rest => runsAux (isWS c) [c] rest

/-- Helper for sentence tokenization: a character-by-character scan of the
split `text.split(/([.!?]+[\s\n]+)/)`.  `done` holds finished fragments in
reverse order; `cur` the current fragment (reversed); `punc` a pending
punctuation run (reversed); `ws` a pending whitespace run following it
(reversed).  A separator is a maximal punctuation run followed by a maximal
whitespace run, and (being captured) is emitted as its own fragment. -/
def sentScan (done : List Str) (cur punc ws : Str) : Str → List Str
  | [] =>
    if ws.isEmpty then ((punc ++ cur).reverse :: done).reverse
    else ([] :: (ws ++ punc).reverse :: cur.reverse :: done).reverse
  | c :: rest =>
    if ws.isEmpty then
      if punc.isEmpty then
        if isPunct c then sentScan done cur [c] [] rest
        else sentScan done (c :: cur) [] [] rest
      else
        if isPunct c then sentScan done cur (c :: punc) [] rest
        else if isWS c then sentScan done cur punc [c] rest
        else sentScan done (c :: (punc ++ cur)) [] [] rest
    else
      if isWS c then sentScan done cur punc (c :: ws) rest
      else
        if isPunct c then
          sentScan ((ws ++ punc).reverse :: cur.reverse :: done) [] [c] [] rest
        else
          sentScan ((ws ++ punc).reverse :: cur.reverse :: done) [c] [] [] rest

/-- Helper for paragraph tokenization: a scan of `text.split(/\n\s*\n/)`.
`pend = some (sep, tl, nl2)` means a separator candidate is open: `sep` holds
the first `\n` and everything up to (and including) the last further `\n`
seen so far, `tl` the whitespace after that last `\n`, and `nl2` whether a
second `\n` has been seen (making the candidate a real match).  The separator
group is not capturing, so matched separators are dropped. -/
def paraScan (done : List Str) (cur : Str) (pend : Option (Str × Str × Bool)) :
    Str → List Str
  | [] =>
    match pend with
    | none => (cur.reverse :: done).reverse
    | some (sep, tl, nl2) =>
      if nl2 then (tl.reverse :: cur.reverse :: done).reverse
      else ((tl ++ sep ++ cur).reverse :: done).reverse
  | c :: rest =>
    match pend with
    | none =>
      if c = '\n' then paraScan done cur (some (['\n'], [], false)) rest
      else paraScan done (c :: cur) none rest
    | some (sep, tl, nl2) =>
      if c = '\n' then paraScan done cur (some ('\n' :: (tl ++ sep), [], true)) rest
      else if isWS c then paraScan done cur (some (sep, c :: tl, nl2)) rest
      else if nl2 then paraScan (cur.reverse :: done) (c :: tl) none rest
      else paraScan done (c :: (tl ++ sep ++ cur)) none rest

/-- Diff granularity levels. -/
inductive Granularity
  | line | word | character | sentence | paragraph
deriving DecidableEq

/-- The `tokenize` function: splits text into tokens per granularity. -/
def tokenize (s : Str) : Granularity → List Str
  | .line => splitLines s
  | .word => wordTokens s
  | .character => s.map (fun c => [c])
  | .sentence => (sentScan [] [] [] [] s).filter (fun t => (trimStr t).length > 0)
  | .paragraph => (paraScan [] [] none s).filter (fun t => (trimStr t).length > 0)

-- ============================================================================
-- Options and normalization
-- ============================================================================

/-- The `DiffOptions` record, with the defaults the source destructures in
(`granularity = 'line'`, flags `false`).  The similarity threshold defaults
to the value the source substitutes for an absent one. -/
structure DiffOptions where
  granularity : Granularity := .line
  ignoreWhitespace : Bool := false
  ignoreCase : Bool := false
  semanticAnalysis : Bool := false
  similarityThreshold : ℚ := 1/2
deriving DecidableEq

/-- The `normalize` function: collapse and trim whitespace when
`ignoreWhitespace`, then lowercase when `ignoreCase`. -/
def normalize (s : Str) (o : DiffOptions) : Str :=
  let s1 := if o.ignoreWhitespace then trimStr (collapseWS s) else s
  if o.ignoreCase then toLowerStr s1 else s1

-- ============================================================================
-- Semantic scorer
-- ============================================================================

/-- Helper for `wordRuns`: collects the maximal `\w+` runs; `cur` is the run
being collected (reversed). -/
def wordRunsAux (cur : Str) : Str → List Str
  | [] => if cur.isEmpty then [] else [cur.reverse]
  | c :: rest =>
    if isWordChar c then wordRunsAux (c :: cur) rest
    else if cur.isEmpty then wordRunsAux [] rest
    else cur.reverse :: wordRunsAux [] rest

/-- The match `text.match(/\b\w+\b/g) || []`: the list of maximal word-character
runs, in order. -/
def wordRuns (s : Str) : List Str := wordRunsAux [] s

/-- The `computeSemanticSimilarity` function: a weighted combination of the
Jaccard overlap of the two lower-cased word sets and the length ratio of the
two texts, with the two empty-set special cases evaluated first. -/
def computeSemanticSimilarity (t1 t2 : Str) : ℚ :=
  let words1 := dedupFirst (wordRuns (toLowerStr t1))
  let words2 := dedupFirst (wordRuns (toLowerStr t2))
  if words1.length = 0 ∧ words2.length = 0 then 1
  else if words1.length = 0 ∨ words2.length = 0 then 0
  else
    let inter := words1.filter (fun w => words2.contains w)
    let union := dedupFirst (words1 ++ words2)
    let jaccard : ℚ := (inter.length : ℚ) / (union.length : ℚ)
    let lengthSim : ℚ := (min t1.length t2.length : ℚ) / (max t1.length t2.length : ℚ)
    jaccard * (7/10) + lengthSim * (3/10)

-- ============================================================================
-- Aligner (LCS)
-- ============================================================================

/-- The dynamic-programming table of `lcs`: `lcsDP a b i j` is the value
`dp[i][j]` filled by the nested loops of the source. -/
def lcsDP (a b : List Str) : Nat → Nat → Nat
  | 0, _ => 0
  | _ + 1, 0 => 0
  | i + 1, j + 1 =>
    if a[i]? = b[j]? then lcsDP a b i j + 1
    else max (lcsDP a b i (j + 1)) (lcsDP a b (i + 1) j)
termination_by i j => (i, j)

/-- One iteration of the backtracking loop of `lcs` at position `(i, j)` with
`i, j ≥ 1`: the pair of pointer values after the iteration. -/
def backtrackStep (a b : List Str) (i j : Nat) : Nat × Nat :=
  if a[i - 1]? = b[j - 1]? then (i - 1, j - 1)
  else if lcsDP a b (i - 1) j > lcsDP a b i (j - 1) then (i - 1, j)
  else (i, j - 1)

/-- The backtracking loop of `lcs`, started at `(m, n)`: emits the common
subsequence front-to-back. -/
def lcsBacktrack (a b : List Str) : Nat → Nat → List Str
  | 0, _ => []
  | _ + 1, 0 => []
  | i + 1, j + 1 =>
    if a[i]? = b[j]? then lcsBacktrack a b i j ++ (a[i]?).toList
    else if lcsDP a b i (j + 1) > lcsDP a b (i + 1) j then lcsBacktrack a b i (j + 1)
    else lcsBacktrack a b (i + 1) j
termination_by i j => (i, j)

/-- The `lcs` function: longest common subsequence of two token lists. -/
def lcs (a b : List Str) : List Str := lcsBacktrack a b a.length b.length

-- ============================================================================
-- Change records and classifier
-- ============================================================================

/-- The four change kinds of a `DiffChange`. -/
inductive ChangeType
  | added | removed | modified | unchanged
deriving DecidableEq

/-- The `keyWords` payload of a modified change. -/
structure KeyWords where
  added : List Str
  removed : List Str
deriving DecidableEq

/-- One change record.  Optional fields model the optional properties of the
source interface. -/
structure DiffChange where
  type : ChangeType
  original : Option Str := none
  modified : Option Str := none
  originalLine : Option Nat := none
  modifiedLine : Option Nat := none
  similarity : Option ℚ := none
  explanation : Option Str := none
  keyWords : Option KeyWords := none
deriving DecidableEq

/-- The aggregate statistics of a diff result. -/
structure DiffStats where
  added : Nat
  removed : Nat
  modified : Nat
  unchanged : Nat
deriving DecidableEq

/-- A diff result: the ordered change list plus its statistics. -/
structure DiffResult where
  changes : List DiffChange
  stats : DiffStats
deriving DecidableEq

/-- The statistics block computed at the end of `diff`: one
`filter(...).length` per change kind. -/
def statsOf (changes : List DiffChange) : DiffStats where
  added := (changes.filter (fun c => c.type = ChangeType.added)).length
  removed := (changes.filter (fun c => c.type = ChangeType.removed)).length
  modified := (changes.filter (fun c => c.type = ChangeType.modified)).length
  unchanged := (changes.filter (fun c => c.type = ChangeType.unchanged)).length

/-- The rounding `Math.round(x)`: round half toward positive infinity. -/
def jsRound (q : ℚ) : ℤ := ⌊q + 1/2⌋

/-- Decimal rendering of an integer, for the interpolated percentage. -/
def intToStr (n : ℤ) : Str := (toString n).toList

/-- The similarity threshold actually compared against: the source reads
`options.similarityThreshold || 0.5`, so a threshold of `0` (falsy) is
replaced by the default as well. -/
def effectiveThreshold (o : DiffOptions) : ℚ :=
  if o.similarityThreshold = 0 then 1/2 else o.similarityThreshold

/-- The key-word lists of a modified change: lower-cased word runs longer
than three characters, deduplicated in insertion order, present on one side
only, capped to the first five. -/
def keyWordsOf (origText modText : Str) : KeyWords :=
  let origWords := dedupFirst ((wordRuns (toLowerStr origText)).filter (fun w => w.length > 3))
  let modWords := dedupFirst ((wordRuns (toLowerStr modText)).filter (fun w => w.length > 3))
  { added := (modWords.filter (fun w => ¬ origWords.contains w)).take 5
    removed := (origWords.filter (fun w => ¬ modWords.contains w)).take 5 }

/-- The explanation string of a modified change, following the template
strings of the source (threshold-gated wording). -/
def explanationOf (o : DiffOptions) (similarity : ℚ) (kw : KeyWords) : Str :=
  if similarity > effectiveThreshold o then
    trimStr ("Reworded with ".toList ++ intToStr (jsRound (similarity * 100)) ++
      "% similarity. Key changes: ".toList ++
      (match kw.added with
       | [] => []
       | w :: _ => "added \"".toList ++ w ++ ['"']) ++
      [' '] ++
      (match kw.removed with
       | [] => []
       | w :: _ => "removed \"".toList ++ w ++ ['"']))
  else
    "Significantly modified. New focus: ".toList ++ joinWith ", ".toList (kw.added.take 2)

/-- The modified-pair record constructed in the final `else` branch of the
classifier loop, including the semantic-analysis fields when enabled. -/
def modifiedChange (o : DiffOptions) (t1 t2 : Str) (oL mL : Nat) : DiffChange :=
  let base : DiffChange :=
    { type := .modified
      original := some t1
      modified := some t2
      originalLine := if o.granularity = .line then some oL else none
      modifiedLine := if o.granularity = .line then some mL else none }
  if o.semanticAnalysis then
    let similarity := computeSemanticSimilarity t1 t2
    let kw := keyWordsOf t1 t2
    { base with
        similarity := some similarity
        keyWords := some kw
        explanation := some (explanationOf o similarity kw) }
  else base

/-- The classifier loop of `diff`: walks the two token lists (paired with
their normalized forms) and the unconsumed part of the LCS, carrying the two
1-indexed line counters.  Each equation mirrors one branch of the source's
`while` loop. -/
def buildChanges (o : DiffOptions) :
    List (Str × Str) → List (Str × Str) → List Str → Nat → Nat → List DiffChange
  | [], [], _, _, _ => []
  | [], (t2, _) :: r2, common, oL, mL =>
    { type := .added
      modified := some t2
      modifiedLine := if o.granularity = .line then some mL else none } ::
    buildChanges o [] r2 common oL (if o.granularity = .line then mL + 1 else mL)
  | (t1, _) :: r1, [], common, oL, mL =>
    { type := .removed
      original := some t1
      originalLine := if o.granularity = .line then some oL else none } ::
    buildChanges o r1 [] common (if o.granularity = .line then oL + 1 else oL) mL
  | (t1, n1) :: r1, (t2, n2) :: r2, common, oL, mL =>
    if n1 = n2 ∧ common.head? = some n1 then
      { type := .unchanged
        original := some t1
        modified := some t2
        originalLine := if o.granularity = .line then some oL else none
        modifiedLine := if o.granularity = .line then some mL else none } ::
      buildChanges o r1 r2 common.tail
        (if o.granularity = .line then oL + 1 else oL)
        (if o.granularity = .line then mL + 1 else mL)
    else if common.head? = some n1 then
      { type := .added
        modified := some t2
        modifiedLine := if o.granularity = .line then some mL else none } ::
      buildChanges o ((t1, n1) :: r1) r2 common oL
        (if o.granularity = .line then mL + 1 else mL)
    else if common.head? = some n2 then
      { type := .removed
        original := some t1
        originalLine := if o.granularity = .line then some oL else none } ::
      buildChanges o r1 ((t2, n2) :: r2) common
        (if o.granularity = .line then oL + 1 else oL) mL
    else
      modifiedChange o t1 t2 oL mL ::
      buildChanges o r1 r2 common
        (if o.granularity = .line then oL + 1 else oL)
        (if o.granularity = .line then mL + 1 else mL)
termination_by l1 l2 => l1.length + l2.length
decreasing_by all_goals (simp; try omega)

/-- The `diff` entry point: tokenize, normalize, align, classify, count. -/
def diff (original modified : Str) (o : DiffOptions) : DiffResult :=
  let tokens1 := tokenize original o.granularity
  let tokens2 := tokenize modified o.granularity
  let normalized1 := tokens1.map (normalize · o)
  let normalized2 := tokens2.map (normalize · o)
  let common := lcs normalized1 normalized2
  let changes := buildChanges o (tokens1.zip normalized1) (tokens2.zip normalized2) common 1 1
  { changes := changes, stats := statsOf changes }

-- ============================================================================
-- Merge generator
-- ============================================================================

/-- A per-change merge decision. -/
inductive Decision
  | accept | reject | keep
deriving DecidableEq

/-- The body of the `forEach` in `generateMergedText`: collects the lines
pushed for each change, `idx` being the running index looked up in the
decision map (an absent entry means `keep`). -/
def mergeLines (decisions : Nat → Option Decision) :
    List DiffChange → Nat → List Str
  | [], _ => []
  | c :: rest, idx =>
    let dec := (decisions idx).getD .keep
    (match c.type with
     | .added =>
       if dec = .accept ∨ dec = .keep then [c.modified.getD []] else []
     | .removed =>
       if dec = .reject ∨ dec = .keep then [c.original.getD []] else []
     | .modified =>
       if dec = .accept then [c.modified.getD []]
       else if dec = .reject then [c.original.getD []]
       else [c.modified.getD []]
     | .unchanged => [c.original.getD []]) ++
    mergeLines decisions rest (idx + 1)

/-- The `generateMergedText` function: replay the change list under a decision
map and join the collected lines with a newline. -/
def generateMergedText (changes : List DiffChange)
    (decisions : Nat → Option Decision) : Str :=
  joinLines (mergeLines decisions changes 0)

-- ============================================================================
-- Character-level diff
-- ============================================================================

/-- Per-character tags of `computeCharacterDiff` (the original side uses
`removed`/`unchanged`, the modified side `added`/`unchanged`). -/
inductive CharTag
  | added | removed | unchanged
deriving DecidableEq

/-- One tagged character of `computeCharacterDiff`. -/
structure TaggedChar where
  char : Char
  type : CharTag
deriving DecidableEq

/-- The `computeCharacterDiff` function: a synchronized walk over both
character lists; equal current characters are unchanged, otherwise the walk
emits a removed/added pair, and an exhausted side lets the other drain. -/
def computeCharacterDiff : Str → Str → List TaggedChar × List TaggedChar
  | [], [] => ([], [])
  | [], m :: ms =>
    let r := computeCharacterDiff [] ms
    (r.1, ⟨m, .added⟩ :: r.2)
  | c :: os, [] =>
    let r := computeCharacterDiff os []
    (⟨c, .removed⟩ :: r.1, r.2)
  | c :: os, m :: ms =>
    let r := computeCharacterDiff os ms
    if c = m then (⟨c, .unchanged⟩ :: r.1, ⟨m, .unchanged⟩ :: r.2)
    else (⟨c, .removed⟩ :: r.1, ⟨m, .added⟩ :: r.2)
termination_by a b => a.length + b.length
decreasing_by all_goals (simp; try omega)

-- ============================================================================
-- Streaming coordinator
-- ============================================================================

/-- One progress event yielded by `streamDiff`.  The source names the result
field `partial`, which is a reserved word here. -/
structure StreamEvent where
  progress : ℚ
  partialResult : Option DiffResult
  complete : Bool
deriving DecidableEq

/-- The match `text.match(new RegExp('.{1,n}', 'gs')) || [text]`: chunks of at
most `n` characters, the last possibly shorter; the empty text falls back to
the single empty chunk.  (A chunk size of `0` makes the source regex
malformed; it is never reached by the claims, which stay below the chunking
threshold in that case.) -/
def chunksGo (n : Nat) : Str → List Str
  | [] => []
  | c :: rest => (c :: rest.take (n - 1)) :: chunksGo n (rest.drop (n - 1))
termination_by s => s.length
decreasing_by simp; omega

/-- Chunking of a text for the streaming coordinator. -/
def chunksOf (n : Nat) (s : Str) : List Str :=
  if s.isEmpty then [[]] else chunksGo n s

/-- Index-pairing of the two chunk lists: a missing chunk on the shorter side
is the empty text (`origChunks[i] || ''`). -/
def padPairs : List Str → List Str → List (Str × Str)
  | [], [] => []
  | a :: as, [] => (a, []) :: padPairs as []
  | [], b :: bs => ([], b) :: padPairs [] bs
  | a :: as, b :: bs => (a, b) :: padPairs as bs

/-- The chunked loop of `streamDiff`: per chunk pair, diff it, extend the
accumulated change list, and yield an intermediate event; after the last
chunk, yield the final complete event. -/
def streamChunkEvents (o : DiffOptions) (total : ℚ) :
    List (Str × Str) → Nat → List DiffChange → List StreamEvent
  | [], _, acc => [⟨100, some ⟨acc, statsOf acc⟩, true⟩]
  | (oc, mc) :: rest, processed, acc =>
    let chunkResult := diff oc mc o
    let acc2 := acc ++ chunkResult.changes
    let processed2 := processed + max oc.length mc.length
    ⟨min 100 (((processed2 : ℚ) / total) * 100), some ⟨acc2, statsOf acc2⟩, false⟩ ::
    streamChunkEvents o total rest processed2 acc2

/-- The `streamDiff` generator, modelled as the finite list of the events it
yields: the chunked path for large inputs, and the uniform two-event protocol
(50% then 100%, both carrying the one complete result) below the threshold. -/
def streamDiff (original modified : Str) (o : DiffOptions) (chunkSize : Nat) :
    List StreamEvent :=
  let totalLength := max original.length modified.length
  if totalLength > chunkSize * 10 then
    let origChunks := chunksOf chunkSize original
    let modChunks := chunksOf chunkSize modified
    streamChunkEvents o (totalLength : ℚ) (padPairs origChunks modChunks) 0 []
  else
    let result := diff original modified o
    [⟨50, some result, false⟩, ⟨100, some result, true⟩]

-- ============================================================================
-- Observation helpers used by the theorems
-- ============================================================================

/-- Erasure of the `explanation` field of a change record, used to state that
an option influences nothing but the explanation wording. -/
def stripExplanation (c : DiffChange) : DiffChange := { c with explanation := none }

/-- Erasure of all `explanation` fields of a result. -/
def stripResult (r : DiffResult) : DiffResult :=
  { changes := r.changes.map stripExplanation, stats := r.stats }

-- ============================================================================
-- Helper lemmas
-- ============================================================================

theorem statsOf_sum (l : List DiffChange) :
    (statsOf l).added + (statsOf l).removed + (statsOf l).modified +
      (statsOf l).unchanged = l.length := by
  induction l with
  | nil => simp [statsOf]
  | cons c rest ih =>
    simp only [statsOf, List.filter_cons] at *
    cases h : c.type <;> simp [h] <;> omega

theorem map_fst_fun_zip {α β γ : Type _} (f : α → γ) :
    ∀ (l₁ : List α) (l₂ : List β), l₂.length = l₁.length →
    (l₁.zip l₂).map (fun p => f p.1) = l₁.map f := by
  intro l₁
  induction l₁ with
  | nil => intro l₂ _; simp
  | cons a l ih =>
    intro l₂ h
    cases l₂ with
    | nil => simp at h
    | cons b l₂ => simp_all

theorem lcsBacktrack_self_take (l : List Str) :
    ∀ i, i ≤ l.length → lcsBacktrack l l i i = l.take i := by
  intro i
  induction i with
  | zero => intro _; simp [lcsBacktrack]
  | succ n ih =>
    intro h
    rw [lcsBacktrack, if_pos rfl, ih (Nat.le_of_succ_le h), ← List.take_succ]

theorem lcs_self (l : List Str) : lcs l l = l := by
  simp [lcs, lcsBacktrack_self_take l l.length (Nat.le_refl _)]

theorem buildChanges_self (o : DiffOptions) (l : List (Str × Str)) (c : List Str)
    (hc : c = l.map Prod.snd) :
    ∀ (oL mL : Nat),
    (buildChanges o l l c oL mL).map (fun ch => (ch.type, ch.original)) =
      l.map (fun p => (ChangeType.unchanged, some p.1)) := by
  subst hc
  induction l with
  | nil => intro oL mL; simp [buildChanges]
  | cons p rest ih =>
    intro oL mL
    obtain ⟨t, n⟩ := p
    rw [buildChanges,
      if_pos (show n = n ∧ (((t, n) :: rest).map Prod.snd).head? = some n from ⟨rfl, rfl⟩)]
    simp only [List.map_cons, List.tail_cons]
    exact congrArg _ (ih _ _)

theorem diff_self_shape (T : Str) (o : DiffOptions) :
    (diff T T o).changes.map (fun c => (c.type, c.original)) =
      (tokenize T o.granularity).map (fun t => (ChangeType.unchanged, some t)) := by
  have hlen : ((tokenize T o.granularity).map (normalize · o)).length =
      (tokenize T o.granularity).length := List.length_map _ _
  have hsnd : (((tokenize T o.granularity).zip
      ((tokenize T o.granularity).map (normalize · o))).map Prod.snd) =
      (tokenize T o.granularity).map (normalize · o) :=
    List.map_snd_zip _ _ (le_of_eq hlen)
  simp only [diff, lcs_self]
  rw [buildChanges_self o _ _ hsnd.symm]
  exact map_fst_fun_zip (fun t => (ChangeType.unchanged, some t)) _ _ hlen

theorem splitLines_ne_nil (s : Str) : splitLines s ≠ [] := by
  induction s using splitLines.induct <;> simp [splitLines] <;> split <;> simp_all

theorem joinLines_cons_cons (c : Char) (p : Str) (ps : List Str) :
    joinLines ((c :: p) :: ps) = c :: joinLines (p :: ps) := by
  cases ps <;> simp [joinLines]

theorem joinLines_splitLines (s : Str) (h : hasCRLF s = false) :
    joinLines (splitLines s) = s := by
  induction s using splitLines.induct with
  | case1 rest ih => rw [hasCRLF.eq_1] at h; exact absurd h (by simp)
  | case2 rest ih =>
    have h' : hasCRLF rest = false := by
      rw [hasCRLF.eq_2 _ _ (by intro t hc; simp at hc)] at h
      exact h
    rw [splitLines.eq_2]
    obtain ⟨p, ps, hps⟩ : ∃ p ps, splitLines rest = p :: ps := by
      cases hsp : splitLines rest with
      | nil => exact absurd hsp (splitLines_ne_nil rest)
      | cons p ps => exact ⟨p, ps, rfl⟩
    rw [hps]
    rw [hps] at ih
    simp only [joinLines]
    rw [ih h']
    simp
  | case3 c rest h1 h2 hnil ih => exact absurd hnil (splitLines_ne_nil rest)
  | case4 c rest h1 h2 p ps hps ih =>
    have h' : hasCRLF rest = false := by
      rw [hasCRLF.eq_2 _ _ h1] at h
      exact h
    rw [splitLines.eq_3 _ _ h1 h2, hps, joinLines_cons_cons, ← hps, ih h']
  | case5 => simp [splitLines, joinLines]

theorem mergeLines_unchanged (d : Nat → Option Decision) :
    ∀ (changes : List DiffChange) (l : List (Str × Str)) (idx : Nat),
    changes.map (fun c => (c.type, c.original)) =
      l.map (fun p => (ChangeType.unchanged, some p.1)) →
    mergeLines d changes idx = l.map Prod.fst := by
  intro changes
  induction changes with
  | nil =>
    intro l idx h
    simp only [List.map_nil] at h
    have : l = [] := List.map_eq_nil_iff.mp h.symm
    subst this
    simp [mergeLines]
  | cons c rest ih =>
    intro l idx h
    cases l with
    | nil => simp at h
    | cons p l' =>
      simp only [List.map_cons, List.cons.injEq, Prod.mk.injEq] at h
      obtain ⟨⟨hty, horig⟩, htail⟩ := h
      rw [mergeLines]
      rw [List.map_cons]
      rw [hty, horig]
      simp only []
      rw [ih l' (idx + 1) htail]
      simp

theorem strip_modifiedChange (o₁ o₂ : DiffOptions)
    (hg : o₁.granularity = o₂.granularity)
    (hs : o₁.semanticAnalysis = o₂.semanticAnalysis)
    (t1 t2 : Str) (oL mL : Nat) :
    stripExplanation (modifiedChange o₁ t1 t2 oL mL) =
      stripExplanation (modifiedChange o₂ t1 t2 oL mL) := by
  simp only [modifiedChange, hg, hs]
  split <;> simp [stripExplanation]

theorem buildChanges_strip_congr (o₁ o₂ : DiffOptions)
    (hg : o₁.granularity = o₂.granularity)
    (hs : o₁.semanticAnalysis = o₂.semanticAnalysis) :
    ∀ (l1 l2 : List (Str × Str)) (common : List Str) (oL mL : Nat),
    (buildChanges o₁ l1 l2 common oL mL).map stripExplanation =
      (buildChanges o₂ l1 l2 common oL mL).map stripExplanation := by
  intro l1 l2 common oL mL
  induction l1, l2, common, oL, mL using buildChanges.induct o₁ with
  | case1 => simp [buildChanges]
  | case2 t2 n2 r2 common oL mL ih =>
    rw [buildChanges, buildChanges]
    simp only [List.map_cons, hg, dite_eq_ite] at ih ⊢
    rw [ih]
  | case3 t1 n1 r1 common oL mL ih =>
    rw [buildChanges, buildChanges]
    simp only [List.map_cons, hg, dite_eq_ite] at ih ⊢
    rw [ih]
  | case4 t1 n1 r1 t2 n2 r2 common oL mL hguard ih =>
    rw [buildChanges, buildChanges, if_pos hguard, if_pos hguard]
    simp only [List.map_cons, hg, dite_eq_ite] at ih ⊢
    rw [ih]
  | case5 t1 n1 r1 t2 n2 r2 common oL mL hguard h1 ih =>
    rw [buildChanges, buildChanges, if_neg hguard, if_neg hguard, if_pos h1, if_pos h1]
    simp only [List.map_cons, hg, dite_eq_ite] at ih ⊢
    rw [ih]
  | case6 t1 n1 r1 t2 n2 r2 common oL mL hguard h1 h2 ih =>
    rw [buildChanges, buildChanges, if_neg hguard, if_neg hguard, if_neg h1, if_neg h1,
      if_pos h2, if_pos h2]
    simp only [List.map_cons, hg, dite_eq_ite] at ih ⊢
    rw [ih]
  | case7 t1 n1 r1 t2 n2 r2 common oL mL hguard h1 h2 ih =>
    rw [buildChanges, buildChanges, if_neg hguard, if_neg hguard, if_neg h1, if_neg h1,
      if_neg h2, if_neg h2]
    simp only [List.map_cons, hg, dite_eq_ite] at ih ⊢
    rw [ih, strip_modifiedChange o₁ o₂ hg hs]

theorem statsOf_congr (l₁ l₂ : List DiffChange)
    (h : l₁.map stripExplanation = l₂.map stripExplanation) : statsOf l₁ = statsOf l₂ := by
  have key : ∀ (x : ChangeType),
      (l₁.filter (fun c => c.type = x)).length = (l₂.filter (fun c => c.type = x)).length := by
    intro x
    rw [← List.countP_eq_length_filter, ← List.countP_eq_length_filter]
    have h₁ : (l₁.map stripExplanation).countP (fun c => c.type = x) =
        l₁.countP (fun c => c.type = x) := by
      rw [List.countP_map]; rfl
    have h₂ : (l₂.map stripExplanation).countP (fun c => c.type = x) =
        l₂.countP (fun c => c.type = x) := by
      rw [List.countP_map]; rfl
    rw [← h₁, ← h₂, h]
  simp only [statsOf, key]

theorem mem_dedupFirst (a : Str) : ∀ (l : List Str), a ∈ dedupFirst l ↔ a ∈ l := by
  intro l
  induction l using dedupFirst.induct with
  | case1 => simp [dedupFirst]
  | case2 b l ih =>
    rw [dedupFirst]
    simp only [List.mem_cons, ih, List.mem_filter]
    constructor
    · rintro (h | ⟨h, _⟩)
      · exact Or.inl h
      · exact Or.inr h
    · rintro (h | h)
      · exact Or.inl h
      · by_cases hab : a = b
        · exact Or.inl hab
        · exact Or.inr ⟨h, by simpa using hab⟩

theorem nodup_dedupFirst : ∀ (l : List Str), (dedupFirst l).Nodup := by
  intro l
  induction l using dedupFirst.induct with
  | case1 => simp [dedupFirst]
  | case2 b l ih =>
    rw [dedupFirst]
    refine List.nodup_cons.mpr ⟨?_, ih⟩
    rw [mem_dedupFirst]
    simp

theorem toFinset_dedupFirst (l : List Str) : (dedupFirst l).toFinset = l.toFinset := by
  ext x
  simp [List.mem_toFinset, mem_dedupFirst]

theorem length_dedupFirst (l : List Str) : (dedupFirst l).length = l.toFinset.card := by
  rw [← toFinset_dedupFirst, List.toFinset_card_of_nodup (nodup_dedupFirst l)]

theorem length_filter_contains (l₁ l₂ : List Str) :
    ((dedupFirst l₁).filter (fun w => (dedupFirst l₂).contains w)).length =
      (l₁.toFinset ∩ l₂.toFinset).card := by
  have hnd : ((dedupFirst l₁).filter (fun w => (dedupFirst l₂).contains w)).Nodup :=
    (nodup_dedupFirst l₁).filter _
  rw [← List.toFinset_card_of_nodup hnd]
  congr 1
  ext x
  simp only [List.mem_toFinset, List.mem_filter, Finset.mem_inter, mem_dedupFirst,
    List.elem_iff]

theorem length_dedupFirst_append (l₁ l₂ : List Str) :
    (dedupFirst (l₁ ++ l₂)).length = (l₁.toFinset ∪ l₂.toFinset).card := by
  rw [length_dedupFirst]
  congr 1
  ext x
  simp [List.mem_toFinset]

theorem normalize_nil (o : DiffOptions) : normalize [] o = [] := by
  simp [normalize, collapseWS, collapseWSAux, trimStr, toLowerStr]

-- ============================================================================
-- Claim theorems
-- ============================================================================

/-- Claim C1: for every pair of input texts and every options value, the
four stats counters of the result of diff sum to the length of the change
list. -/
theorem c1_stats_sum_matches_length (a b : Str) (o : DiffOptions) :
    (diff a b o).stats.added + (diff a b o).stats.removed + (diff a b o).stats.modified +
      (diff a b o).stats.unchanged = (diff a b o).changes.length := by
  simp only [diff]
  exact statsOf_sum _

/-- Claim C2 (counterexample): at word granularity the change list of
diff("Hello world", "Hello there") contains a whitespace token as its second
record (an unchanged single space), and has three records rather than the two
the claim asserts, so whitespace runs are not discarded by word
tokenization. -/
theorem c2_counterexample :
    (((diff "Hello world".toList "Hello there".toList
        { granularity := Granularity.word }).changes.map
          (fun c => (c.type, c.original, c.modified)))[1]? =
      some (ChangeType.unchanged, some " ".toList, some " ".toList)) ∧
    (diff "Hello world".toList "Hello there".toList
        { granularity := Granularity.word }).changes.length ≠ 2 := by
  constructor <;>
    simp +decide [diff, tokenize, wordTokens, runsAux, normalize, lcs, lcsBacktrack,
      lcsDP, buildChanges, statsOf, modifiedChange, isWS]

/-- Claim C2 (amended): word tokenization splits on whitespace boundaries but
keeps the whitespace runs themselves as tokens (the separator group of the
split is capturing; only empty fragments are filtered out), so
diff("Hello world", "Hello there", word) yields unchanged "Hello", an
unchanged " " whitespace token, and one modified pair "world"/"there", with
stats 0/0/1/2. -/
theorem c2_amended :
    tokenize "Hello world".toList Granularity.word =
      ["Hello".toList, " ".toList, "world".toList] ∧
    ((diff "Hello world".toList "Hello there".toList
        { granularity := Granularity.word }).changes.map
          (fun c => (c.type, c.original, c.modified)) =
      [(ChangeType.unchanged, some "Hello".toList, some "Hello".toList),
       (ChangeType.unchanged, some " ".toList, some " ".toList),
       (ChangeType.modified, some "world".toList, some "there".toList)]) ∧
    (diff "Hello world".toList "Hello there".toList
        { granularity := Granularity.word }).stats = ⟨0, 0, 1, 2⟩ := by
  refine ⟨by decide, ?_, ?_⟩ <;>
    simp +decide [diff, tokenize, wordTokens, runsAux, normalize, lcs, lcsBacktrack,
      lcsDP, buildChanges, statsOf, modifiedChange, isWS]

/-- Claim C3 (counterexample): at the backtrack position (2, 2) for the token
lists ["a", "b"] and ["b", "a"] the current tokens are unequal and
dp[i-1][j] > dp[i][j-1] does not hold (both are 1), yet the step moves to
(2, 1) — decrementing the modified-side pointer j — and not to (1, 2); as a
result the computed LCS is ["b"], not the ["a"] an original-side preference
would produce. -/
theorem c3_counterexample :
    (([['a'], ['b']] : List Str)[1]? ≠ ([['b'], ['a']] : List Str)[1]?) ∧
    ¬ (lcsDP [['a'], ['b']] [['b'], ['a']] 1 2 > lcsDP [['a'], ['b']] [['b'], ['a']] 2 1) ∧
    backtrackStep [['a'], ['b']] [['b'], ['a']] 2 2 = (2, 1) ∧
    backtrackStep [['a'], ['b']] [['b'], ['a']] 2 2 ≠ (1, 2) ∧
    lcs [['a'], ['b']] [['b'], ['a']] = [['b']] := by
  refine ⟨by decide, ?_, ?_, ?_, ?_⟩ <;>
    simp +decide [lcs, lcsBacktrack, lcsDP, backtrackStep]

/-- Claim C3 (amended): in the LCS backtrack, at every step where the two
current tokens are unequal and dp[i-1][j] > dp[i][j-1] does not hold, the
algorithm decrements the modified-side pointer j (not the original-side
pointer i). -/
theorem c3_amended (a b : List Str) (i j : Nat)
    (hne : a[i]? ≠ b[j]?)
    (htie : ¬ (lcsDP a b i (j + 1) > lcsDP a b (i + 1) j)) :
    backtrackStep a b (i + 1) (j + 1) = (i + 1, j) ∧
    lcsBacktrack a b (i + 1) (j + 1) = lcsBacktrack a b (i + 1) j := by
  constructor
  · rw [backtrackStep]
    simp only [Nat.add_sub_cancel]
    rw [if_neg hne, if_neg htie]
  · rw [lcsBacktrack, if_neg hne, if_neg htie]

/-- Witness for the amended claim C3, at the one-token lists ["a"], ["b"]
and position (1, 1). -/
theorem c3_amended_witness :
    backtrackStep [['a']] [['b']] 1 1 = (1, 0) ∧
    lcsBacktrack [['a']] [['b']] 1 1 = lcsBacktrack [['a']] [['b']] 1 0 :=
  c3_amended [['a']] [['b']] 0 0 (by decide) (by simp [lcsDP])

/-- Claim C4 (counterexample): with the line granularity (the default),
diff("", "") does not return an empty change list: line splitting of the
empty text yields one empty line token, so the result is a single unchanged
record with stats 0/0/0/1. -/
theorem c4_counterexample :
    (diff ([] : Str) ([] : Str) { granularity := Granularity.line }).changes =
      [{ type := ChangeType.unchanged, original := some [], modified := some [],
         originalLine := some 1, modifiedLine := some 1 }] ∧
    (diff ([] : Str) ([] : Str) { granularity := Granularity.line }).stats = ⟨0, 0, 0, 1⟩ ∧
    (diff ([] : Str) ([] : Str) { granularity := Granularity.line }).changes.length ≠ 0 := by
  refine ⟨?_, ?_, ?_⟩ <;>
    simp +decide [diff, tokenize, splitLines, normalize, lcs, lcsBacktrack, lcsDP,
      buildChanges, statsOf]

/-- Claim C4 (amended): diff("", "", opts) yields an empty change list and
all-zero stats for the word, character, sentence and paragraph granularities
(and any flag combination); at line granularity it instead yields exactly one
unchanged record for the single empty line token, with stats 0/0/0/1. -/
theorem c4_amended (o : DiffOptions) :
    (o.granularity = Granularity.line →
      diff [] [] o =
        ⟨[{ type := ChangeType.unchanged, original := some [], modified := some [],
            originalLine := some 1, modifiedLine := some 1 }], ⟨0, 0, 0, 1⟩⟩) ∧
    (o.granularity ≠ Granularity.line →
      diff [] [] o = ⟨[], ⟨0, 0, 0, 0⟩⟩) := by
  obtain ⟨g, iw, ic, sa, st⟩ := o
  constructor
  · intro hg
    simp only at hg
    subst hg
    simp +decide [diff, tokenize, splitLines, normalize_nil, lcs, lcsBacktrack, lcsDP,
      buildChanges, statsOf]
  · intro hg
    simp only at hg
    cases g with
    | line => exact absurd rfl hg
    | word =>
      simp +decide [diff, tokenize, wordTokens, lcs, lcsBacktrack, buildChanges, statsOf]
    | character =>
      simp +decide [diff, tokenize, lcs, lcsBacktrack, buildChanges, statsOf]
    | sentence =>
      simp +decide [diff, tokenize, sentScan, trimStr, lcs, lcsBacktrack, buildChanges,
        statsOf]
    | paragraph =>
      simp +decide [diff, tokenize, paraScan, trimStr, lcs, lcsBacktrack, buildChanges,
        statsOf]

/-- Witness for the amended claim C4, at the word granularity with all flags
false. -/
theorem c4_amended_witness :
    diff [] [] { granularity := Granularity.word } = ⟨[], ⟨0, 0, 0, 0⟩⟩ :=
  (c4_amended { granularity := Granularity.word }).2 (by decide)

/-- Claim C5: for every text T and every options value, every change record
of diff(T, T, opts) has kind unchanged. -/
theorem c5_self_diff_all_unchanged (T : Str) (o : DiffOptions) :
    (diff T T o).changes.all (fun c => c.type = ChangeType.unchanged) = true := by
  rw [List.all_eq_true]
  intro c hc
  have hmem : (c.type, c.original) ∈ (diff T T o).changes.map (fun c => (c.type, c.original)) :=
    List.mem_map_of_mem _ hc
  rw [diff_self_shape] at hmem
  obtain ⟨t, _, ht⟩ := List.mem_map.mp hmem
  have hty : c.type = ChangeType.unchanged := by
    have := congrArg Prod.fst ht
    simpa using this.symm
  simp [hty]

/-- Claim C6 (counterexample): at character granularity the merge generator
joins the per-character unchanged records with a newline, so replaying the
self-diff of "ab" reconstructs "a\nb" and not "ab". -/
theorem c6_counterexample :
    generateMergedText
        (diff "ab".toList "ab".toList { granularity := Granularity.character }).changes
        (fun _ => none) = "a\nb".toList ∧
    generateMergedText
        (diff "ab".toList "ab".toList { granularity := Granularity.character }).changes
        (fun _ => none) ≠ "ab".toList := by
  constructor <;>
    simp +decide [diff, tokenize, normalize, lcs, lcsBacktrack, lcsDP, buildChanges,
      statsOf, generateMergedText, mergeLines, joinLines]

/-- Claim C6 (amended): at line granularity, for every text T containing no
CRLF pair and every decision map, replaying the change list of
diff(T, T, opts) through generateMergedText reconstructs T exactly (the
merge generator joins lines with a bare newline, so other granularities and
CRLF line breaks are not reconstructed verbatim). -/
theorem c6_amended (T : Str) (o : DiffOptions) (d : Nat → Option Decision)
    (hg : o.granularity = Granularity.line) (hcr : hasCRLF T = false) :
    generateMergedText (diff T T o).changes d = T := by
  have hlen : ((tokenize T o.granularity).map (normalize · o)).length =
      (tokenize T o.granularity).length := List.length_map _ _
  have hshape : (diff T T o).changes.map (fun c => (c.type, c.original)) =
      (((tokenize T o.granularity).zip ((tokenize T o.granularity).map (normalize · o))).map
        (fun p => (ChangeType.unchanged, some p.1))) := by
    rw [diff_self_shape,
      map_fst_fun_zip (fun t => (ChangeType.unchanged, some t)) _ _ hlen]
  unfold generateMergedText
  rw [mergeLines_unchanged d _ _ 0 hshape,
    List.map_fst_zip _ _ (le_of_eq hlen.symm)]
  rw [hg]
  exact joinLines_splitLines T hcr

/-- Witness for the amended claim C6, at the two-line text "ab\ncd" with an
empty decision map. -/
theorem c6_amended_witness :
    hasCRLF "ab\ncd".toList = false ∧
    generateMergedText
      (diff "ab\ncd".toList "ab\ncd".toList { granularity := Granularity.line }).changes
      (fun _ => none) = "ab\ncd".toList :=
  ⟨by decide, c6_amended _ _ _ rfl (by decide)⟩

/-- Claim C7: two diffs of the same texts whose options differ only in the
similarity threshold agree on everything except the explanation wording:
after erasing the explanation field, the change lists (kinds, texts, line
numbers, similarity scores, key words) and the stats are identical. -/
theorem c7_threshold_affects_only_explanation (a b : Str) (o : DiffOptions) (t₁ t₂ : ℚ) :
    stripResult (diff a b { o with similarityThreshold := t₁ }) =
      stripResult (diff a b { o with similarityThreshold := t₂ }) := by
  have hbc := buildChanges_strip_congr
    { o with similarityThreshold := t₁ } { o with similarityThreshold := t₂ } rfl rfl
  simp only [diff, stripResult]
  exact congrArg₂ DiffResult.mk (hbc _ _ _ _ _) (statsOf_congr _ _ (hbc _ _ _ _ _))

/-- Claim C8: computeSemanticSimilarity equals
0.7 × Jaccard(wordSet(a), wordSet(b)) + 0.3 × (min(len a, len b) / max(len a, len b)),
where the word sets are the lower-cased maximal alphanumeric runs and
Jaccard is the ratio of intersection to union cardinality; the result is 1
when both word sets are empty and 0 when exactly one is. -/
theorem c8_similarity_formula (a b : Str) :
    computeSemanticSimilarity a b =
      if (wordRuns (toLowerStr a)).toFinset = ∅ ∧ (wordRuns (toLowerStr b)).toFinset = ∅ then 1
      else if (wordRuns (toLowerStr a)).toFinset = ∅ ∨ (wordRuns (toLowerStr b)).toFinset = ∅
        then 0
      else (7/10 : ℚ) *
            (((wordRuns (toLowerStr a)).toFinset ∩ (wordRuns (toLowerStr b)).toFinset).card /
              ((wordRuns (toLowerStr a)).toFinset ∪ (wordRuns (toLowerStr b)).toFinset).card) +
          (3/10 : ℚ) * ((min a.length b.length : ℚ) / (max a.length b.length : ℚ)) := by
  have hA : (dedupFirst (wordRuns (toLowerStr a))).length = 0 ↔
      (wordRuns (toLowerStr a)).toFinset = ∅ := by
    rw [length_dedupFirst, Finset.card_eq_zero]
  have hB : (dedupFirst (wordRuns (toLowerStr b))).length = 0 ↔
      (wordRuns (toLowerStr b)).toFinset = ∅ := by
    rw [length_dedupFirst, Finset.card_eq_zero]
  simp only [computeSemanticSimilarity, hA, hB]
  split_ifs with h1 h2
  · rfl
  · rfl
  · rw [length_filter_contains, length_dedupFirst_append, toFinset_dedupFirst,
      toFinset_dedupFirst]
    ring

/-- Claim C9: for inputs below the chunking threshold, streamDiff yields
exactly two events — an intermediate one at progress 50 with complete false
and a final one at progress 100 with complete true — both carrying the same
already-complete diff result, and the sequence ends with the complete
event. -/
theorem c9_stream_small_two_events (a b : Str) (o : DiffOptions) (chunkSize : Nat)
    (h : max a.length b.length ≤ chunkSize * 10) :
    streamDiff a b o chunkSize =
      [⟨50, some (diff a b o), false⟩, ⟨100, some (diff a b o), true⟩] := by
  simp only [streamDiff]
  rw [if_neg (by omega)]

/-- Witness for claim C9, at the texts "ab" and "cd" with chunk size 1000. -/
theorem c9_stream_small_two_events_witness :
    streamDiff "ab".toList "cd".toList { granularity := Granularity.word } 1000 =
      [⟨50, some (diff "ab".toList "cd".toList { granularity := Granularity.word }), false⟩,
       ⟨100, some (diff "ab".toList "cd".toList { granularity := Granularity.word }), true⟩] :=
  c9_stream_small_two_events _ _ _ _ (by decide)

/-- Claim C10: for every pair of texts, concatenating the characters of the
original-side tagged list of computeCharacterDiff reproduces the original
text, and concatenating those of the modified-side list reproduces the
modified text. -/
theorem c10_char_diff_reconstructs (a b : Str) :
    ((computeCharacterDiff a b).1.map TaggedChar.char = a) ∧
    ((computeCharacterDiff a b).2.map TaggedChar.char = b) := by
  induction a, b using computeCharacterDiff.induct <;>
    (simp only [computeCharacterDiff]; try split) <;> simp_all

end TextDiff
